import Mathlib

/-!
# Verification of the trestle task-execution runtime core

Shallow embedding of the task runtime of `packages/trestle/src/internal/core`:

* `runtime-env.ts` — the `Environment` class: task-argument resolution
  (`_resolveValidTaskArguments`, `_resolveArgument`, `_checkTypeValidation`),
  task execution with `runSuper` delegation (`_runTaskDefinition`), ambient
  global injection/restoration (`injectToGlobal`), and the constructor.
* `config/config-resolution.ts` — `mergeUserAndDefaultConfigs` (the `deepmerge`
  library with the `arrayMerge: (destination, source) => source` option),
  `resolveConfig`, `resolvePathFrom` and `resolveProjectPaths`.

JavaScript objects are embedded as association lists with unique keys
(`objLookup` / `objSet` mirror property read and property write: a write to an
existing key keeps its position, a write to a fresh key appends, which is the
enumeration-order behaviour of JS objects).  JS values are embedded as the
inductive `CVal`; `undefined` is represented by `Option` at the use sites
(an absent key reads as `none`).
-/

set_option autoImplicit false

namespace Trestle

universe u v

/-- Embedding of a JSON-like JavaScript value (the shapes that appear in
configuration objects and task arguments). -/
inductive CVal where
  | num (n : Int)
  | str (s : String)
  | bool (b : Bool)
  | arr (elems : List CVal)
  | obj (fields : List (String × CVal))

/-- Embeds `Array.isArray`. -/
def CVal.isArr : CVal → Bool
  | .arr _ => true
  | _ => false

/-- The `deepmerge` library's `isMergeableObject` (a non-null object that is
not a special wrapper): plain objects and arrays. -/
def CVal.isMergeable : CVal → Bool
  | .obj _ => true
  | .arr _ => true
  | _ => false

/-- Own enumerable fields of a value: the fields for an object, `[]` for
everything else (mirrors `getKeys` / iteration in `deepmerge`, which sees no
keys on primitives). -/
def CVal.objFields : CVal → List (String × CVal)
  | .obj fields => fields
  | _ => []

section ObjOps

variable {β : Type u}

/-- Property read on a JS object: `o[k]`, `undefined` (= `none`) when the key
is absent. -/
def objLookup (l : List (String × β)) (k : String) : Option β :=
  match l with
  | [] => none
  | (a, b) :: rest => if a = k then some b else objLookup rest k

/-- Property write on a JS object: `o[k] = v`.  An existing key keeps its
enumeration position; a fresh key is appended. -/
def objSet (l : List (String × β)) (k : String) (v : β) : List (String × β) :=
  match l with
  | [] => [(k, v)]
  | (a, b) :: rest => if a = k then (a, v) :: rest else (a, b) :: objSet rest k v

/-- The value the *last* entry of an entry list gives to a key (what a JS
object built by successive writes of the entries would hold). -/
def lookupLast (l : List (String × β)) (k : String) : Option β :=
  match l with
  | [] => none
  | (a, b) :: rest =>
    match lookupLast rest k with
    | some v => some v
    | none => if a = k then some b else none

/-- Writing the entries of `l` into the object `acc` in order. -/
def writeEntries (acc : List (String × β)) (l : List (String × β)) : List (String × β) :=
  l.foldl (fun m kv => objSet m kv.1 kv.2) acc

@[simp] theorem objLookup_nil (k : String) : objLookup ([] : List (String × β)) k = none := rfl

theorem objLookup_objSet (l : List (String × β)) (k k' : String) (v : β) :
    objLookup (objSet l k v) k' = if k' = k then some v else objLookup l k' := by
  induction l with
  | nil =>
    by_cases h : k' = k
    · subst h; simp [objSet, objLookup]
    · simp [objSet, objLookup, h, Ne.symm h]
  | cons hd tl ih =>
    obtain ⟨a, b⟩ := hd
    by_cases hak : a = k
    · subst hak
      by_cases h : k' = a
      · subst h; simp [objSet, objLookup]
      · simp [objSet, objLookup, h, Ne.symm h]
    · by_cases h : a = k'
      · subst h
        simp [objSet, objLookup, hak]
      · simp [objSet, objLookup, hak, h, ih]

theorem objLookup_eq_none_of_not_mem (l : List (String × β)) (k : String)
    (h : k ∉ l.map Prod.fst) : objLookup l k = none := by
  induction l with
  | nil => rfl
  | cons hd tl ih =>
    obtain ⟨a, b⟩ := hd
    simp only [List.map_cons, List.mem_cons] at h
    push_neg at h
    have ha : ¬ a = k := fun hh => h.1 hh.symm
    simp [objLookup, ha, ih h.2]

theorem lookupLast_eq_none_of_not_mem (l : List (String × β)) (k : String)
    (h : k ∉ l.map Prod.fst) : lookupLast l k = none := by
  induction l with
  | nil => rfl
  | cons hd tl ih =>
    obtain ⟨a, b⟩ := hd
    simp only [List.map_cons, List.mem_cons] at h
    push_neg at h
    have ha : ¬ a = k := fun hh => h.1 hh.symm
    simp [lookupLast, ih h.2, ha]

/-- Under key uniqueness, first-entry lookup and last-entry lookup agree. -/
theorem lookupLast_eq_objLookup (l : List (String × β)) (k : String)
    (h : (l.map Prod.fst).Nodup) : lookupLast l k = objLookup l k := by
  induction l with
  | nil => rfl
  | cons hd tl ih =>
    obtain ⟨a, b⟩ := hd
    simp only [List.map_cons, List.nodup_cons] at h
    by_cases hak : a = k
    · subst hak
      have : lookupLast tl a = none :=
        lookupLast_eq_none_of_not_mem tl a (by simpa using h.1)
      simp [lookupLast, objLookup, this]
    · simp only [lookupLast, objLookup, ih h.2, if_neg hak]
      cases objLookup tl k <;> rfl

/-- Lookup after writing a list of entries: the last entry for the key wins,
falling back to the original object. -/
theorem objLookup_writeEntries (l : List (String × β)) (acc : List (String × β)) (k : String) :
    objLookup (writeEntries acc l) k =
      match lookupLast l k with
      | some v => some v
      | none => objLookup acc k := by
  induction l generalizing acc with
  | nil => simp [writeEntries, lookupLast]
  | cons hd tl ih =>
    obtain ⟨a, b⟩ := hd
    have step : writeEntries acc ((a, b) :: tl) = writeEntries (objSet acc a b) tl := rfl
    rw [step, ih]
    by_cases hak : k = a
    · subst hak
      cases htl : lookupLast tl k <;> simp [lookupLast, htl, objLookup_objSet]
    · have ha : ¬ a = k := fun hh => hak hh.symm
      cases htl : lookupLast tl k <;>
        simp [lookupLast, htl, objLookup_objSet, hak, ha]

theorem objSet_keys (l : List (String × β)) (k : String) (v : β) :
    (objSet l k v).map Prod.fst =
      if k ∈ l.map Prod.fst then l.map Prod.fst else l.map Prod.fst ++ [k] := by
  induction l with
  | nil => simp [objSet]
  | cons hd tl ih =>
    obtain ⟨a, b⟩ := hd
    by_cases hak : a = k
    · subst hak; simp [objSet]
    · have hka : ¬ k = a := fun hh => hak hh.symm
      simp only [objSet, if_neg hak, List.map_cons, List.mem_cons]
      rw [ih]
      by_cases hk : k ∈ tl.map Prod.fst <;> simp [hk, hka]

theorem objSet_nodup (l : List (String × β)) (k : String) (v : β)
    (h : (l.map Prod.fst).Nodup) : ((objSet l k v).map Prod.fst).Nodup := by
  rw [objSet_keys]
  by_cases hk : k ∈ l.map Prod.fst
  · simpa [hk]
  · simpa [hk] using List.Nodup.append h (by simp) (by simpa using hk)

end ObjOps

/-! ## Errors

Modelled from the spec: `errors-list.ts` is not part of the sources at hand;
the spec (§7, §4.1, §4.2, §4.4) names the conditions `MissingArgument`
(`ERRORS.ARGUMENTS.MISSING_TASK_ARGUMENT`), `InvalidArgumentType`,
`RunSuperNotAvailable` (`ERRORS.TASK_DEFINITIONS.RUNSUPER_NOT_AVAILABLE`),
`NetworkConfigNotFound` (`ERRORS.NETWORK.CONFIG_NOT_FOUND`) and
`UnrecognizedTask` (`ERRORS.ARGUMENTS.UNRECOGNIZED_TASK`), each carrying the
template variables used at the throw sites in `runtime-env.ts`.  `jsTypeError`
stands for a raw JavaScript `TypeError` (e.g. iterating a non-iterable), and
`userThrown` for an arbitrary exception raised by a user-supplied validator. -/
inductive TrestleError where
  | missingTaskArgument (param : String)
  | invalidArgumentType (param : String) (reason : String)
  | runSuperNotAvailable (taskName : String)
  | networkConfigNotFound (network : String)
  | unrecognizedTask (task : String)
  | jsTypeError (message : String)
  | userThrown (message : String)
  deriving Repr, DecidableEq

/-! ## Parameter model

Modelled from the spec (§3) where the TypeScript interfaces
(`ParamDefinitionAny` in `types.ts`) are not part of the sources at hand: a
parameter definition carries `name`, an optional `defaultValue`, an optional
`type` whose `validate` member may itself be absent, `isOptional` and
`isVariadic`.  A validator receives the parameter name and a value and throws
on mismatch (embedded as `Except`). -/

structure ParamType where
  validate : Option (String → CVal → Except TrestleError Unit)

structure ParamDefinition where
  name : String
  defaultValue : Option CVal
  type : Option ParamType
  isOptional : Bool
  isVariadic : Bool

/-- Task arguments: a JS object mapping argument names to values.  An absent
key reads as `undefined` (`none`). -/
abbrev TaskArguments := List (String × CVal)

/-- Embeds `for (const value of argumentValue)`: JS iteration.  Arrays yield their
elements, strings yield their characters, everything else raises a
`TypeError`. -/
def iterateElems : CVal → Except TrestleError (List CVal)
  | .arr xs => .ok xs
  | .str s => .ok (s.toList.map (fun c => .str (String.mk [c])))
  | _ => .error (.jsTypeError "argumentValue is not iterable")

/-- Embeds `Environment._checkTypeValidation` (runtime-env.ts:282-300): skip when no
type or no `validate` member is declared; for a variadic parameter validate
every element of the provided sequence, otherwise validate the single
value. -/
def checkTypeValidation (paramDefinition : ParamDefinition) (argumentValue : CVal) :
    Except TrestleError Unit :=
  match paramDefinition.type with
  | none => .ok ()
  | some t =>
    match t.validate with
    | none => .ok ()
    | some validateFn =>
      match (if paramDefinition.isVariadic then iterateElems argumentValue
             else .ok [argumentValue]) with
      | .error e => .error e
      | .ok container => container.forM (fun value => validateFn paramDefinition.name value)

/-- Embeds `Environment._resolveArgument` (runtime-env.ts:250-272).  The raw value is
`none` when the argument is absent (`undefined`); the result is `none` when an
optional parameter without a declared default resolves to `undefined`. -/
def resolveArgument (paramDefinition : ParamDefinition) (argumentValue : Option CVal) :
    Except TrestleError (Option CVal) :=
  match argumentValue with
  | none =>
    if paramDefinition.isOptional then
      -- undefined & optional argument -> return defaultValue
      .ok paramDefinition.defaultValue
    else
      -- undefined & mandatory argument -> error
      .error (.missingTaskArgument paramDefinition.name)
  | some v =>
    -- arg was present -> validate type, if applicable
    match checkTypeValidation paramDefinition v with
    | .error e => .error e
    | .ok _ => .ok (some v)

/-! ## Task definitions

Modelled from the spec (§3, §9) where `tasks/task-definitions.ts` is not part
of the sources at hand: a base `TaskDefinition` and the `OverriddenTaskDefinition`
variant holding a reference to exactly one `parentTaskDefinition` are embedded
as a sum, as §9 prescribes ("represent base task and overridden task as a
tagged union").  `paramDefinitions` is kept as `Object.values` of the original
name-keyed mapping, i.e. the value list in insertion order (each value's
`name` equals its key); `positionalParamDefinitions` is the ordered sequence.

An action receives the resolved arguments and the `runSuper` callable and
returns a result or throws (`Except`).  The action also receives the runtime
environment itself (`this`), which is the same value for every call within one
execution and is therefore not threaded through this embedding.  The result
type is a parameter `ρ`. -/

/-- The `runSuper` callable handed to an action: calling it with `none` is the
JS call `runSuper()` (the defaulted parameter `_taskArguments = taskArguments`),
with `some args` the call `runSuper(args)`.  `isDefined` is the marker flag
set on the function object. -/
structure RunSuperFunction (ρ : Type u) where
  call : Option TaskArguments → Except TrestleError ρ
  isDefined : Bool

inductive TaskDefinition (ρ : Type u) where
  | base (name : String) (paramDefinitions : List ParamDefinition)
      (positionalParamDefinitions : List ParamDefinition)
      (action : TaskArguments → RunSuperFunction ρ → Except TrestleError ρ)
  | overridden (name : String) (paramDefinitions : List ParamDefinition)
      (positionalParamDefinitions : List ParamDefinition)
      (action : TaskArguments → RunSuperFunction ρ → Except TrestleError ρ)
      (parentTaskDefinition : TaskDefinition ρ)

namespace TaskDefinition

variable {ρ : Type u}

def name : TaskDefinition ρ → String
  | .base n _ _ _ => n
  | .overridden n _ _ _ _ => n

def paramDefinitions : TaskDefinition ρ → List ParamDefinition
  | .base _ pd _ _ => pd
  | .overridden _ pd _ _ _ => pd

def positionalParamDefinitions : TaskDefinition ρ → List ParamDefinition
  | .base _ _ ppd _ => ppd
  | .overridden _ _ ppd _ _ => ppd

def action : TaskDefinition ρ →
    (TaskArguments → RunSuperFunction ρ → Except TrestleError ρ)
  | .base _ _ _ a => a
  | .overridden _ _ _ a _ => a

end TaskDefinition

section ArgumentResolution

variable {ρ : Type u}

/-- Embeds `allTaskParamDefinitions` (runtime-env.ts:199-205): the values of
`paramDefinitions` followed by `positionalParamDefinitions`. -/
def allTaskParamDefinitions (taskDefinition : TaskDefinition ρ) : List ParamDefinition :=
  taskDefinition.paramDefinitions ++ taskDefinition.positionalParamDefinitions

/-- One step of the `reduce` in `_resolveValidTaskArguments`
(runtime-env.ts:212-230): resolve the parameter against
`taskArguments[paramName]`, record a defined value, push an error. -/
def resolveStep (taskArguments : TaskArguments)
    (acc : List TrestleError × TaskArguments) (paramDefinition : ParamDefinition) :
    List TrestleError × TaskArguments :=
  match resolveArgument paramDefinition (objLookup taskArguments paramDefinition.name) with
  | .error e => (acc.1 ++ [e], acc.2)
  | .ok none => acc
  | .ok (some v) => (acc.1, objSet acc.2 paramDefinition.name v)

/-- Embeds `Environment._resolveValidTaskArguments` (runtime-env.ts:193-241): fold
all parameter definitions, throw the first collected error, otherwise spread
the resolved values over the raw arguments
(`{ ...taskArguments, ...resolvedValues }`). -/
def resolveValidTaskArguments (taskDefinition : TaskDefinition ρ)
    (taskArguments : TaskArguments) : Except TrestleError TaskArguments :=
  let resolvedArguments :=
    (allTaskParamDefinitions taskDefinition).foldl (resolveStep taskArguments) ([], [])
  match resolvedArguments.1 with
  | e :: _ => .error e
  | [] => .ok (writeEntries taskArguments resolvedArguments.2)

/-- Specification-side recomposition: the validation error each parameter
contributes, in processing order. -/
def collectResolveErrors (taskDefinition : TaskDefinition ρ)
    (taskArguments : TaskArguments) : List TrestleError :=
  (allTaskParamDefinitions taskDefinition).filterMap (fun paramDefinition =>
    match resolveArgument paramDefinition (objLookup taskArguments paramDefinition.name) with
    | .error e => some e
    | .ok _ => none)

/-- Specification-side recomposition: the defined resolved values, written in
processing order. -/
def resolvedValuesOf (taskDefinition : TaskDefinition ρ)
    (taskArguments : TaskArguments) : TaskArguments :=
  (allTaskParamDefinitions taskDefinition).foldl (fun values paramDefinition =>
    match resolveArgument paramDefinition (objLookup taskArguments paramDefinition.name) with
    | .ok (some v) => objSet values paramDefinition.name v
    | _ => values) []

end ArgumentResolution

/-! ## Task execution with `runSuper` delegation

`Environment._runTaskDefinition` (runtime-env.ts:135-178) does two independent
things: it constructs the `runSuper` callable and dispatches to the action,
and it wraps the action call in ambient global injection/restoration.  The
global bookkeeping is observationally neutral for the action's result (the
`finally` block restores state), so the embedding is split into two
projections of the same source function:

* `runTaskDefinition` — the functional view: `runSuper` construction and
  dispatch (lines 139-164 and 173);
* `runTaskDefinitionGlobals` — the ambient-state view: the global mutations
  around an action abstracted to a state transformer (lines 164-177 together
  with `injectToGlobal`, lines 109-133).
-/

section RunTask

variable {ρ : Type u}

/-- The functional projection of `_runTaskDefinition`: for an
`OverriddenTaskDefinition` the `runSuper` callable re-enters the routine
against `parentTaskDefinition` with the caller-supplied arguments, defaulting
to the same `taskArguments` (`_taskArguments = taskArguments`), and carries
`isDefined = true`; for a base definition it unconditionally throws
`RUNSUPER_NOT_AVAILABLE` naming the task and carries `isDefined = false`. -/
def runTaskDefinition : TaskDefinition ρ → TaskArguments → Except TrestleError ρ
  | .base name _ _ act, taskArguments =>
    act taskArguments
      { call := fun _ => .error (.runSuperNotAvailable name), isDefined := false }
  | .overridden _ _ _ act parent, taskArguments =>
    act taskArguments
      { call := fun explicitArgs => runTaskDefinition parent (explicitArgs.getD taskArguments),
        isDefined := true }

end RunTask

/-! ## Ambient global state -/

section Globals

variable {α : Type u} {β : Type v}

/-- The process-wide global object, as a partial map: `none` is `undefined`
(a name that does not exist). -/
def GlobalState (α : Type u) := String → Option α

/-- Embeds `globalAsAny[k] = v` (also used with `v = none` to write `undefined`
back). -/
def gset (g : GlobalState α) (k : String) (v : Option α) : GlobalState α :=
  fun n => if n = k then v else g n

@[simp] theorem gset_same (g : GlobalState α) (k : String) (v : Option α) :
    gset g k v k = v := by simp [gset]

theorem gset_other (g : GlobalState α) (k n : String) (v : Option α) (h : ¬ n = k) :
    gset g k v n = g n := by simp [gset, h]

/-- The loop of `injectToGlobal` (runtime-env.ts:115-122): for each enumerable
own entry of the environment, skip the blacklist, capture the previous global
value into `previousValues`, then overwrite the global.  Returns the final
global state and the captured `previousValues` object (read through
`previousValues[key]`, so a capture object is itself a `GlobalState`). -/
def injectLoop (blacklist : List String) :
    List (String × α) → GlobalState α → GlobalState α → GlobalState α × GlobalState α
  | [], g, previousValues => (g, previousValues)
  | (key, value) :: rest, g, previousValues =>
    if key ∈ blacklist then injectLoop blacklist rest g previousValues
    else injectLoop blacklist rest (gset g key (some value))
      (gset previousValues key (g key))

/-- Embeds `Environment.injectToGlobal` (runtime-env.ts:109-133), acting on the
enumerable own entries of the environment. -/
def injectToGlobal (entries : List (String × α)) (blacklist : List String)
    (g : GlobalState α) : GlobalState α × GlobalState α :=
  injectLoop blacklist entries g (fun _ => none)

/-- The restore closure returned by `injectToGlobal` (runtime-env.ts:124-132):
write `previousValues[key]` back for every non-blacklisted entry key. -/
def uninjectFromGlobal (entries : List (String × α)) (blacklist : List String)
    (previousValues : GlobalState α) (g : GlobalState α) : GlobalState α :=
  entries.foldl
    (fun acc kv => if kv.1 ∈ blacklist then acc else gset acc kv.1 (previousValues kv.1)) g

/-- The ambient-state projection of `_runTaskDefinition`
(runtime-env.ts:164-177): save `global.runSuper`, install the constructed
`runSuper` value, inject the environment's entries, run the action (an
arbitrary transformer of global state that also yields a result — a thrown
error is a `β` of the caller's choosing, e.g. an `Except`), then in the
`finally` block restore the injected entries and `global.runSuper`. -/
def runTaskDefinitionGlobals (entries : List (String × α)) (blacklist : List String)
    (runSuperValue : α) (action : GlobalState α → β × GlobalState α)
    (g₀ : GlobalState α) : β × GlobalState α :=
  let previousRunSuper := g₀ "runSuper"
  let gInstalled := gset g₀ "runSuper" (some runSuperValue)
  let injected := injectToGlobal entries blacklist gInstalled
  let acted := action injected.1
  let restored := uninjectFromGlobal entries blacklist injected.2 acted.2
  (acted.1, gset restored "runSuper" previousRunSuper)

/-- The keys `injectToGlobal` actually touches: entry keys off the
blacklist. -/
def injectedKeys (entries : List (String × α)) (blacklist : List String) : List String :=
  (entries.map Prod.fst).filter (fun k => k ∉ blacklist)

theorem injectedKeys_cons (a : String) (b : α) (tl : List (String × α))
    (blacklist : List String) :
    injectedKeys ((a, b) :: tl) blacklist =
      if a ∈ blacklist then injectedKeys tl blacklist
      else a :: injectedKeys tl blacklist := by
  by_cases hbl : a ∈ blacklist <;> simp [injectedKeys, List.filter_cons, hbl]

theorem injectLoop_prev_not_mem (blacklist : List String) (entries : List (String × α))
    (g previousValues : GlobalState α) (k : String)
    (h : k ∉ injectedKeys entries blacklist) :
    (injectLoop blacklist entries g previousValues).2 k = previousValues k := by
  induction entries generalizing g previousValues with
  | nil => rfl
  | cons hd tl ih =>
    obtain ⟨a, b⟩ := hd
    rw [injectedKeys_cons] at h
    by_cases hbl : a ∈ blacklist
    · rw [if_pos hbl] at h
      simp only [injectLoop, if_pos hbl]
      exact ih g previousValues h
    · rw [if_neg hbl] at h
      simp only [List.mem_cons] at h
      push_neg at h
      simp only [injectLoop, if_neg hbl]
      rw [ih _ _ h.2]
      exact gset_other _ _ _ _ h.1

theorem injectLoop_g_not_mem (blacklist : List String) (entries : List (String × α))
    (g previousValues : GlobalState α) (k : String)
    (h : k ∉ injectedKeys entries blacklist) :
    (injectLoop blacklist entries g previousValues).1 k = g k := by
  induction entries generalizing g previousValues with
  | nil => rfl
  | cons hd tl ih =>
    obtain ⟨a, b⟩ := hd
    rw [injectedKeys_cons] at h
    by_cases hbl : a ∈ blacklist
    · rw [if_pos hbl] at h
      simp only [injectLoop, if_pos hbl]
      exact ih g previousValues h
    · rw [if_neg hbl] at h
      simp only [List.mem_cons] at h
      push_neg at h
      simp only [injectLoop, if_neg hbl]
      rw [ih _ _ h.2]
      exact gset_other _ _ _ _ h.1

/-- With unique (non-blacklisted) entry keys, the captured `previousValues`
holds, for every injected key, exactly the global value from before the
injection. -/
theorem injectLoop_prev_mem (blacklist : List String) (entries : List (String × α))
    (g previousValues : GlobalState α) (k : String)
    (hnd : (injectedKeys entries blacklist).Nodup)
    (h : k ∈ injectedKeys entries blacklist) :
    (injectLoop blacklist entries g previousValues).2 k = g k := by
  induction entries generalizing g previousValues with
  | nil => simp [injectedKeys] at h
  | cons hd tl ih =>
    obtain ⟨a, b⟩ := hd
    rw [injectedKeys_cons] at h hnd
    by_cases hbl : a ∈ blacklist
    · rw [if_pos hbl] at h hnd
      simp only [injectLoop, if_pos hbl]
      exact ih g previousValues hnd h
    · rw [if_neg hbl] at h hnd
      simp only [List.nodup_cons] at hnd
      simp only [injectLoop, if_neg hbl]
      rcases List.mem_cons.mp h with hk | hk
      · subst hk
        rw [injectLoop_prev_not_mem blacklist tl _ _ k hnd.1]
        simp [gset]
      · rw [ih _ _ hnd.2 hk]
        exact gset_other _ _ _ _ (fun hh => hnd.1 (hh ▸ hk))

/-- Restoring: every non-blacklisted entry key receives its captured value;
every other name keeps the state the action left. -/
theorem uninjectFromGlobal_lookup (entries : List (String × α)) (blacklist : List String)
    (previousValues g : GlobalState α) (k : String) :
    uninjectFromGlobal entries blacklist previousValues g k =
      if k ∈ injectedKeys entries blacklist then previousValues k else g k := by
  induction entries generalizing g with
  | nil => simp [uninjectFromGlobal, injectedKeys]
  | cons hd tl ih =>
    obtain ⟨a, b⟩ := hd
    have step : uninjectFromGlobal ((a, b) :: tl) blacklist previousValues g =
        uninjectFromGlobal tl blacklist previousValues
          (if a ∈ blacklist then g else gset g a (previousValues a)) := rfl
    rw [step, injectedKeys_cons]
    by_cases hbl : a ∈ blacklist
    · simp only [if_pos hbl, ih]
    · rw [if_neg hbl, if_neg hbl, ih]
      by_cases htl : k ∈ injectedKeys tl blacklist
      · rw [if_pos htl, if_pos (List.mem_cons.mpr (Or.inr htl))]
      · rw [if_neg htl]
        by_cases hka : k = a
        · subst hka
          rw [if_pos (List.mem_cons.mpr (Or.inl rfl)), gset_same]
        · rw [if_neg (by simp [List.mem_cons, hka, htl]), gset_other _ _ _ _ hka]

end Globals

/-! ## POSIX path primitives

`config-resolution.ts` uses Node's `path` module (`isAbsolute`, `join`,
`dirname`).  These are embedded following Node's POSIX implementation:
`join` concatenates the non-empty segments with `/` and normalizes (collapsing
empty and `.` segments and resolving `..`; trailing-slash preservation, which
no caller here depends on, is elided), `dirname` scans for the slash ending
the last path component. -/

/-- Embeds `path.isAbsolute`: first character is `/`. -/
def posixIsAbsolute (p : String) : Bool :=
  match p.toList with
  | '/' :: _ => true
  | _ => false

/-- Split on `/` (every occurrence, keeping empty segments, like
`"a//b".split("/")`). -/
def splitSlashChars : List Char → List (List Char)
  | [] => [[]]
  | c :: rest =>
    let r := splitSlashChars rest
    if c = '/' then [] :: r
    else
      match r with
      | h :: t => (c :: h) :: t
      | [] => [[c]]

/-- One segment of normalization: drop empty and `.` segments, let `..` cancel
the previous real segment (at the root of an absolute path `..` vanishes; in a
relative path leading `..`s pile up).  The accumulator is reversed. -/
def normSegment (isAbs : Bool) (acc : List (List Char)) (seg : List Char) :
    List (List Char) :=
  if seg = [] ∨ seg = ['.'] then acc
  else if seg = ['.', '.'] then
    match acc with
    | [] => if isAbs then [] else [['.', '.']]
    | a :: rest => if a = ['.', '.'] then seg :: acc else rest
  else seg :: acc

/-- Node's `path.normalize` for POSIX paths (modulo trailing slashes). -/
def posixNormalize (p : String) : String :=
  let isAbs := posixIsAbsolute p
  let segs := (splitSlashChars p.toList).foldl (normSegment isAbs) []
  let out := String.intercalate "/" (segs.reverse.map (fun cs => String.mk cs))
  if isAbs then (if out = "" then "/" else "/" ++ out)
  else (if out = "" then "." else out)

/-- Embeds `path.join(a, b)`: join the non-empty parts with `/` and normalize; `"."`
when everything is empty. -/
def posixJoin (a b : String) : String :=
  let joined := if a = "" then b else if b = "" then a else a ++ "/" ++ b
  if joined = "" then "." else posixNormalize joined

/-- Scan for Node's `dirname` "end" index: walking the characters backwards
(current index supplied), skip trailing slashes, then the last component, and
return the index of the slash that terminates it. -/
def dirnameEnd : List Char → Nat → Bool → Option Nat
  | [], _, _ => none
  | c :: rest, i, matchedSlash =>
    if c = '/' then
      if matchedSlash then dirnameEnd rest (i - 1) true
      else some i
    else dirnameEnd rest (i - 1) false

/-- Node's `path.dirname` for POSIX paths. -/
def posixDirname (p : String) : String :=
  if p = "" then "."
  else
    let cs := p.toList
    let hasRoot := posixIsAbsolute p
    -- the loop runs from the last index down to index 1
    match dirnameEnd (cs.reverse.take (cs.length - 1)) (cs.length - 1) true with
    | none => if hasRoot then "/" else "."
    | some e => if hasRoot ∧ e = 1 then "//" else String.mk (cs.take e)

/-! ## Configuration resolution (`config-resolution.ts`) -/

/-- A user or default configuration object (`Config`). -/
abbrev Config := List (String × CVal)

/-- The user's `paths` object: path names to path strings (`UserPaths`). -/
abbrev UserPaths := List (String × String)

/-- Embeds `resolvePathFrom` (config-resolution.ts:58-68): an absolute path is used
as is, a relative one is joined onto `from`; an `undefined` third argument
defaults to `defaultPath`. -/
def resolvePathFrom (fromDir : String) (defaultPath : String)
    (relativeOrAbsolutePath : Option String := none) : String :=
  let p := relativeOrAbsolutePath.getD defaultPath
  if posixIsAbsolute p then p else posixJoin fromDir p

/-- Embeds `fromEntries` from `internal/util/lang.ts` (not among the sources at
hand), the standard `Object.fromEntries`: build an object by writing the
entries in order (a later duplicate key wins). -/
def fromEntries {β : Type u} (entries : List (String × β)) : List (String × β) :=
  writeEntries [] entries

/-- Embeds `resolveProjectPaths` (config-resolution.ts:81-103): `root` resolves from
the config file's directory with default `""`; every user-declared path
resolves from `root` with itself as the default; then the object literal
overrides `root`, `configFile` and the four well-known paths with their
defaults. -/
def resolveProjectPaths (userConfigPath : String) (userPaths : UserPaths := []) :
    List (String × String) :=
  let configDir := posixDirname userConfigPath
  let root := resolvePathFrom configDir "" (objLookup userPaths "root")
  let otherPathsEntries := userPaths.map
    (fun kv => (kv.1, resolvePathFrom root kv.2 none))
  let otherPaths := fromEntries otherPathsEntries
  objSet (objSet (objSet (objSet (objSet (objSet otherPaths
    "root" root)
    "configFile" userConfigPath)
    "sources" (resolvePathFrom root "contracts" (objLookup userPaths "sources")))
    "cache" (resolvePathFrom root "cache" (objLookup userPaths "cache")))
    "artifacts" (resolvePathFrom root "artifacts" (objLookup userPaths "artifacts")))
    "tests" (resolvePathFrom root "test" (objLookup userPaths "tests"))

/-! ## Deep merge (the `deepmerge` npm library, as configured)

`mergeUserAndDefaultConfigs` (config-resolution.ts:14-21) calls
`deepmerge(defaultConfig, userConfig, { arrayMerge: (destination, source) =>
source })`.  The library: when exactly one of target/source is an array the
(cloned) source wins; when both are arrays the `arrayMerge` option returns the
source; otherwise `mergeObject` copies the target's own fields (when the
target is mergeable) and then, key by key of the source, recurses when the key
is on the target and the source value is mergeable, else takes the source
value.  Cloning is the identity in a pure embedding.  The prototype-chain
guard (`propertyIsUnsafe`) is vacuous on association lists, which have only
own properties. -/

mutual

def deepmergeVal : CVal → CVal → CVal
  | _, .arr xs => .arr xs
  | .arr _, s => s
  | t, .obj sourceFields => .obj (mergeSourceFields t t.objFields sourceFields)
  | t, .num _ => .obj t.objFields
  | t, .str _ => .obj t.objFields
  | t, .bool _ => .obj t.objFields

def mergeSourceFields (t : CVal) (destination : List (String × CVal)) :
    List (String × CVal) → List (String × CVal)
  | [] => destination
  | (key, sv) :: rest =>
    match objLookup t.objFields key, sv.isMergeable with
    | some tv, true => mergeSourceFields t (objSet destination key (deepmergeVal tv sv)) rest
    | some _, false => mergeSourceFields t (objSet destination key sv) rest
    | none, _ => mergeSourceFields t (objSet destination key sv) rest

end

/-- Embeds `mergeUserAndDefaultConfigs` (config-resolution.ts:14-21). -/
def mergeUserAndDefaultConfigs (defaultConfig userConfig : Config) : Config :=
  (deepmergeVal (.obj defaultConfig) (.obj userConfig)).objFields

/-- Embeds `ResolvedConfig`: modelled from the spec (§3) where `types.ts` is not
among the sources at hand — the merged user/default fields, a `paths` member
(absent when no config file path was supplied), and a `networks` member that
the type declares as always present. -/
structure ResolvedConfig where
  fields : Config
  paths : Option (List (String × String))
  networks : CVal

/-- Embeds `ConfigExtender` (spec §6): invoked with the mutable resolved config and
the original user config; mutation is embedded as returning the updated
resolved config. -/
def ConfigExtender : Type :=
  ResolvedConfig → Config → ResolvedConfig

/-- Embeds `userConfig.paths` as handed to `resolveProjectPaths`: the `paths` member
of the user config object, read as a name→string mapping (`UserPaths`). -/
def userPathsOf (userConfig : Config) : UserPaths :=
  match objLookup userConfig "paths" with
  | some (.obj fields) =>
    fields.filterMap (fun kv =>
      match kv.2 with
      | .str s => some (kv.1, s)
      | _ => none)
  | _ => []

/-- Embeds `resolveConfig` (config-resolution.ts:34-56): deep-merge the two configs,
resolve the project paths when a config-file path was supplied, default
`networks` to the empty mapping (`config.networks ?? \x7b\x7d`), then run the
config extenders in order over the resolved object. -/
def resolveConfig (userConfigPath : Option String) (defaultConfig userConfig : Config)
    (configExtenders : List ConfigExtender) : ResolvedConfig :=
  let config := mergeUserAndDefaultConfigs defaultConfig userConfig
  let paths := userConfigPath.map
    (fun p => resolveProjectPaths p (userPathsOf userConfig))
  let resolved : ResolvedConfig :=
    { fields := config
      paths := paths
      networks := (objLookup config "networks").getD (.obj []) }
  configExtenders.foldl (fun acc extender => extender acc userConfig) resolved

/-! ## The `Environment` constructor (runtime-env.ts:45-72) -/

/-- The derived `network` value object `{ name, config }`; `config` is
`undefined` when the selected network has no entry. -/
structure Network where
  name : String
  config : Option CVal

/-- Embeds `RuntimeArgs`: modelled from the spec (§3) where `types.ts` is not among
the sources at hand; the constructor only reads the network selector. -/
structure RuntimeArgs where
  network : String

/-- JS truthiness, for the `!ncfg` test in the constructor. -/
def CVal.truthy : CVal → Bool
  | .bool b => b
  | .num n => n != 0
  | .str s => s ≠ ""
  | .arr _ => true
  | .obj _ => true

section Env

variable {ρ : Type u}

/-- The task registry handed to the constructor: task name to current head of
the override chain. -/
abbrev TasksMap (ρ : Type u) := List (String × TaskDefinition ρ)

/-- The state of an `Environment` instance: its public own fields.  The
private `_extenders` member is stored on the instance but never read again in
this module; the extender list is therefore threaded through construction
directly (an `EnvironmentExtender` mutates its argument, embedded as a
function on the state). -/
structure EnvState (ρ : Type u) where
  config : ResolvedConfig
  runtimeArgs : RuntimeArgs
  tasks : TasksMap ρ
  network : Network

/-- The `Environment` constructor (runtime-env.ts:45-72): look the selected
network up in `config.networks`; when the entry is falsy and `networkRequired`
holds, throw `CONFIG_NOT_FOUND`; otherwise set the fields, including
`network = { name, config }`, and invoke every extender in order on the
instance. -/
def createEnvironment (config : ResolvedConfig) (runtimeArgs : RuntimeArgs)
    (tasks : TasksMap ρ) (extenders : List (EnvState ρ → EnvState ρ))
    (networkRequired : Bool := true) : Except TrestleError (EnvState ρ) :=
  let ncfg := objLookup config.networks.objFields runtimeArgs.network
  -- `!ncfg`: `undefined` and falsy values alike fail the check
  if (match ncfg with
      | none => true
      | some v => !v.truthy) && networkRequired then
    .error (.networkConfigNotFound runtimeArgs.network)
  else
    let env : EnvState ρ :=
      { config := config
        runtimeArgs := runtimeArgs
        tasks := tasks
        network := { name := runtimeArgs.network, config := ncfg } }
    .ok (extenders.foldl (fun e extender => extender e) env)

/-- Embeds `Environment.run` (runtime-env.ts:83-100): look the task up, throw
`UNRECOGNIZED_TASK` when absent, resolve the arguments, dispatch. -/
def runTask (env : EnvState ρ) (name : String) (taskArguments : TaskArguments := []) :
    Except TrestleError ρ :=
  match objLookup env.tasks name with
  | none => .error (.unrecognizedTask name)
  | some taskDefinition =>
    match resolveValidTaskArguments taskDefinition taskArguments with
    | .error e => .error e
    | .ok resolved => runTaskDefinition taskDefinition resolved

end Env

/-! ## Supporting lemmas on argument resolution -/

section ArgumentResolutionLemmas

variable {ρ : Type u}

theorem not_mem_of_objLookup_eq_none {β : Type v} (l : List (String × β)) (k : String)
    (h : objLookup l k = none) : k ∉ l.map Prod.fst := by
  induction l with
  | nil => simp
  | cons hd tl ih =>
    obtain ⟨a, b⟩ := hd
    by_cases hak : a = k
    · subst hak; simp [objLookup] at h
    · simp only [objLookup, if_neg hak] at h
      simp only [List.map_cons, List.mem_cons]
      push_neg
      exact ⟨fun hh => hak hh.symm, ih h⟩

/-- The error the resolution of one parameter contributes (if any). -/
def paramError (taskArguments : TaskArguments) (paramDefinition : ParamDefinition) :
    Option TrestleError :=
  match resolveArgument paramDefinition (objLookup taskArguments paramDefinition.name) with
  | .error e => some e
  | .ok _ => none

/-- One step of the values accumulator, in isolation. -/
def valueStep (taskArguments : TaskArguments) (values : TaskArguments)
    (paramDefinition : ParamDefinition) : TaskArguments :=
  match resolveArgument paramDefinition (objLookup taskArguments paramDefinition.name) with
  | .ok (some v) => objSet values paramDefinition.name v
  | _ => values

/-- The `reduce` of `_resolveValidTaskArguments` splits into the collected
error list and the values object, each a simple traversal. -/
theorem resolveFold_spec (taskArguments : TaskArguments) (l : List ParamDefinition)
    (es : List TrestleError) (vs : TaskArguments) :
    l.foldl (resolveStep taskArguments) (es, vs) =
      (es ++ l.filterMap (paramError taskArguments),
       l.foldl (valueStep taskArguments) vs) := by
  induction l generalizing es vs with
  | nil => simp
  | cons p rest ih =>
    cases h : resolveArgument p (objLookup taskArguments p.name) with
    | error e =>
      simp [resolveStep, valueStep, paramError, h, ih]
    | ok o =>
      cases o with
      | none => simp [resolveStep, valueStep, paramError, h, ih]
      | some v => simp [resolveStep, valueStep, paramError, h, ih]

theorem collectResolveErrors_eq (taskDefinition : TaskDefinition ρ)
    (taskArguments : TaskArguments) :
    collectResolveErrors taskDefinition taskArguments =
      (allTaskParamDefinitions taskDefinition).filterMap (paramError taskArguments) := by
  unfold collectResolveErrors paramError
  rfl

theorem resolvedValuesOf_eq (taskDefinition : TaskDefinition ρ)
    (taskArguments : TaskArguments) :
    resolvedValuesOf taskDefinition taskArguments =
      (allTaskParamDefinitions taskDefinition).foldl (valueStep taskArguments) [] := by
  unfold resolvedValuesOf valueStep
  rfl

/-- The function `_resolveValidTaskArguments`, recomposed: every parameter is processed,
the collected errors are surfaced through their head, and on success the
resolved values are spread over the raw arguments. -/
theorem resolveValidTaskArguments_eq (taskDefinition : TaskDefinition ρ)
    (taskArguments : TaskArguments) :
    resolveValidTaskArguments taskDefinition taskArguments =
      match collectResolveErrors taskDefinition taskArguments with
      | e :: _ => .error e
      | [] => .ok (writeEntries taskArguments (resolvedValuesOf taskDefinition taskArguments)) := by
  unfold resolveValidTaskArguments
  rw [collectResolveErrors_eq, resolvedValuesOf_eq,
    resolveFold_spec taskArguments _ [] []]
  simp

theorem valueStep_fold_lookup_not_mem (taskArguments : TaskArguments)
    (l : List ParamDefinition) (vs : TaskArguments) (k : String)
    (h : k ∉ l.map ParamDefinition.name) :
    objLookup (l.foldl (valueStep taskArguments) vs) k = objLookup vs k := by
  induction l generalizing vs with
  | nil => rfl
  | cons p rest ih =>
    simp only [List.map_cons, List.mem_cons] at h
    push_neg at h
    simp only [List.foldl_cons]
    rw [ih _ h.2]
    unfold valueStep
    cases hr : resolveArgument p (objLookup taskArguments p.name) with
    | error e => rfl
    | ok o =>
      cases o with
      | none => rfl
      | some v => rw [objLookup_objSet, if_neg h.1]

/-- With pairwise-distinct parameter names, the values object binds each
parameter's name exactly to its own resolution result (when defined). -/
theorem valueStep_fold_lookup (taskArguments : TaskArguments)
    (l : List ParamDefinition) (vs : TaskArguments) (p : ParamDefinition)
    (hnd : (l.map ParamDefinition.name).Nodup) (hp : p ∈ l) :
    objLookup (l.foldl (valueStep taskArguments) vs) p.name =
      match resolveArgument p (objLookup taskArguments p.name) with
      | .ok (some v) => some v
      | _ => objLookup vs p.name := by
  induction l generalizing vs with
  | nil => simp at hp
  | cons q rest ih =>
    simp only [List.map_cons, List.nodup_cons] at hnd
    simp only [List.foldl_cons]
    rcases List.mem_cons.mp hp with hq | hq
    · subst hq
      rw [valueStep_fold_lookup_not_mem taskArguments rest _ p.name hnd.1]
      unfold valueStep
      cases hr : resolveArgument p (objLookup taskArguments p.name) with
      | error e => rfl
      | ok o =>
        cases o with
        | none => rfl
        | some v => rw [objLookup_objSet, if_pos rfl]
    · have hpq : ¬ p.name = q.name := by
        intro hh
        exact hnd.1 (hh ▸ List.mem_map_of_mem ParamDefinition.name hq)
      rw [ih _ hnd.2 hq]
      unfold valueStep
      cases hr : resolveArgument q (objLookup taskArguments q.name) with
      | error e => rfl
      | ok o =>
        cases o with
        | none => rfl
        | some v => rw [objLookup_objSet, if_neg hpq]

theorem valueStep_fold_nodup (taskArguments : TaskArguments)
    (l : List ParamDefinition) (vs : TaskArguments)
    (h : (vs.map Prod.fst).Nodup) :
    (((l.foldl (valueStep taskArguments) vs)).map Prod.fst).Nodup := by
  induction l generalizing vs with
  | nil => exact h
  | cons p rest ih =>
    simp only [List.foldl_cons]
    refine ih _ ?_
    unfold valueStep
    cases hr : resolveArgument p (objLookup taskArguments p.name) with
    | error e => exact h
    | ok o =>
      cases o with
      | none => exact h
      | some v => exact objSet_nodup _ _ _ h

end ArgumentResolutionLemmas

/-! ## Supporting lemmas on the deep merge -/

section DeepMergeLemmas

/-- The value one source field contributes to the destination. -/
def mergedField (t : CVal) (key : String) (sv : CVal) : CVal :=
  match objLookup t.objFields key, sv.isMergeable with
  | some tv, true => deepmergeVal tv sv
  | _, _ => sv

theorem mergeSourceFields_cons (t : CVal) (destination : List (String × CVal))
    (key : String) (sv : CVal) (rest : List (String × CVal)) :
    mergeSourceFields t destination ((key, sv) :: rest) =
      mergeSourceFields t (objSet destination key (mergedField t key sv)) rest := by
  cases h : objLookup t.objFields key with
  | none => simp only [mergeSourceFields, mergedField, h]
  | some tv =>
    cases hm : sv.isMergeable <;>
      simp only [mergeSourceFields, mergedField, h, hm]

theorem mergeSourceFields_lookup_not_mem (t : CVal) (destination : List (String × CVal))
    (src : List (String × CVal)) (k : String) (h : k ∉ src.map Prod.fst) :
    objLookup (mergeSourceFields t destination src) k = objLookup destination k := by
  induction src generalizing destination with
  | nil => rfl
  | cons hd rest ih =>
    obtain ⟨a, sv⟩ := hd
    simp only [List.map_cons, List.mem_cons] at h
    push_neg at h
    rw [mergeSourceFields_cons, ih _ h.2, objLookup_objSet, if_neg h.1]

/-- Key-by-key behaviour of `mergeObject`: a key absent from the source keeps
the destination's value; a key present in the source gets the source value,
recursively merged with the target's value when both are there and the source
value is mergeable. -/
theorem mergeSourceFields_lookup (t : CVal) (destination : List (String × CVal))
    (src : List (String × CVal)) (k : String)
    (hnd : (src.map Prod.fst).Nodup) :
    objLookup (mergeSourceFields t destination src) k =
      match objLookup src k with
      | none => objLookup destination k
      | some sv => some (mergedField t k sv) := by
  induction src generalizing destination with
  | nil => rfl
  | cons hd rest ih =>
    obtain ⟨a, sv⟩ := hd
    simp only [List.map_cons, List.nodup_cons] at hnd
    rw [mergeSourceFields_cons]
    by_cases hka : k = a
    · subst hka
      rw [mergeSourceFields_lookup_not_mem t _ rest k hnd.1, objLookup_objSet,
        if_pos rfl]
      simp [objLookup]
    · rw [ih _ hnd.2]
      have hak : ¬ a = k := fun hh => hka hh.symm
      simp only [objLookup, if_neg hak]
      cases objLookup rest k with
      | none => rw [objLookup_objSet, if_neg hka]
      | some w => rfl

theorem mergeUserAndDefaultConfigs_eq (defaultConfig userConfig : Config) :
    mergeUserAndDefaultConfigs defaultConfig userConfig =
      mergeSourceFields (.obj defaultConfig) defaultConfig userConfig := rfl

end DeepMergeLemmas

/-! ## Claim theorems -/

section Claims

variable {ρ : Type u}

/-- C6: During argument resolution for one task, every validation error
encountered while resolving the different parameters is collected, and if any
were collected exactly the first one (in the processing order of the parameter
definitions) is raised; parameters after a failing one are still processed
(the error list and the values object are full traversals of all parameter
definitions), and no error is raised when none occurs. -/
theorem resolveValidTaskArguments_first_error_surfaced (taskDefinition : TaskDefinition ρ)
    (taskArguments : TaskArguments) :
    resolveValidTaskArguments taskDefinition taskArguments =
      match collectResolveErrors taskDefinition taskArguments with
      | e :: _ => .error e
      | [] => .ok (writeEntries taskArguments
          (resolvedValuesOf taskDefinition taskArguments)) :=
  resolveValidTaskArguments_eq taskDefinition taskArguments

/-- C7: For every parameter definition with `isOptional = false`, resolving a
raw argument mapping in which that parameter's value is absent fails with a
`MISSING_TASK_ARGUMENT` condition naming that parameter, and the overall task
argument resolution cannot succeed. -/
theorem resolveArgument_missing_mandatory (taskDefinition : TaskDefinition ρ)
    (taskArguments : TaskArguments) (p : ParamDefinition)
    (hp : p ∈ allTaskParamDefinitions taskDefinition)
    (hopt : p.isOptional = false)
    (habs : objLookup taskArguments p.name = none) :
    resolveArgument p (objLookup taskArguments p.name) =
        .error (.missingTaskArgument p.name)
      ∧ ∀ m, resolveValidTaskArguments taskDefinition taskArguments ≠ .ok m := by
  have hres : resolveArgument p (objLookup taskArguments p.name) =
      .error (.missingTaskArgument p.name) := by
    rw [habs]
    simp [resolveArgument, hopt]
  refine ⟨hres, ?_⟩
  intro m hok
  have heq := (resolveValidTaskArguments_eq taskDefinition taskArguments).symm.trans hok
  cases hc : collectResolveErrors taskDefinition taskArguments with
  | cons e es => rw [hc] at heq; exact Except.noConfusion heq
  | nil =>
    have hall := List.filterMap_eq_nil_iff.mp
      ((collectResolveErrors_eq taskDefinition taskArguments).symm.trans hc)
    have := hall p hp
    rw [paramError, hres] at this
    exact Option.noConfusion this

/-- Fixture: a mandatory parameter that is left unsupplied. -/
def mandatoryParam : ParamDefinition :=
  { name := "addr", defaultValue := none, type := none,
    isOptional := false, isVariadic := false }

/-- Fixture: a task declaring only `mandatoryParam`. -/
def tdMandatory : TaskDefinition Unit :=
  .base "deploy" [mandatoryParam] [] (fun _ _ => .ok ())

theorem resolveArgument_missing_mandatory_witness :
    resolveArgument mandatoryParam (objLookup ([] : TaskArguments) mandatoryParam.name) =
        .error (.missingTaskArgument mandatoryParam.name)
      ∧ ∀ m, resolveValidTaskArguments tdMandatory [] ≠ .ok m :=
  resolveArgument_missing_mandatory tdMandatory [] mandatoryParam
    (by simp [allTaskParamDefinitions, tdMandatory, TaskDefinition.paramDefinitions,
      TaskDefinition.positionalParamDefinitions])
    rfl rfl

/-- C1 (amended): on a successful resolution, every declared parameter (named
and positional, under the registry's pairwise-distinct parameter names) that
is either supplied in the raw arguments or carries a defined default is
present as a key in the produced mapping, bound to its provided value (which
passed validation) or to its declared default; in particular an optional
parameter with a declared default that is absent from the raw arguments
resolves to exactly that default.  (An optional parameter whose default is
`undefined` and which is not supplied is omitted from the mapping — see the
counterexample.) -/
theorem resolveValidTaskArguments_binds_declared_params
    (taskDefinition : TaskDefinition ρ) (taskArguments : TaskArguments)
    (m : TaskArguments)
    (hnd : ((allTaskParamDefinitions taskDefinition).map ParamDefinition.name).Nodup)
    (hok : resolveValidTaskArguments taskDefinition taskArguments = .ok m)
    (p : ParamDefinition) (hp : p ∈ allTaskParamDefinitions taskDefinition)
    (hdef : (objLookup taskArguments p.name).isSome = true ∨ p.defaultValue.isSome = true) :
    ∃ v, objLookup m p.name = some v ∧
      ((objLookup taskArguments p.name = some v ∧ checkTypeValidation p v = .ok ())
        ∨ (objLookup taskArguments p.name = none ∧ p.defaultValue = some v)) := by
  have heq := (resolveValidTaskArguments_eq taskDefinition taskArguments).symm.trans hok
  cases hc : collectResolveErrors taskDefinition taskArguments with
  | cons e es => rw [hc] at heq; exact Except.noConfusion heq
  | nil =>
    rw [hc] at heq
    have hm : writeEntries taskArguments (resolvedValuesOf taskDefinition taskArguments)
        = m := by
      injection heq
    have hall := List.filterMap_eq_nil_iff.mp
      ((collectResolveErrors_eq taskDefinition taskArguments).symm.trans hc)
    have herr := hall p hp
    -- the values object has unique keys and binds p.name to p's resolution
    have hvals := valueStep_fold_lookup taskArguments
      (allTaskParamDefinitions taskDefinition) [] p hnd hp
    have hvnodup := valueStep_fold_nodup taskArguments
      (allTaskParamDefinitions taskDefinition) [] (by simp)
    unfold paramError at herr
    cases hlook : objLookup taskArguments p.name with
    | some v =>
      rw [hlook] at herr
      have hcv : checkTypeValidation p v = .ok () := by
        cases hcv' : checkTypeValidation p v with
        | ok u => cases u; rfl
        | error e =>
          rw [show resolveArgument p (some v) = .error e by
            simp [resolveArgument, hcv']] at herr
          exact Option.noConfusion herr
      have hres : resolveArgument p (some v) = .ok (some v) := by
        simp [resolveArgument, hcv]
      have hvlook : objLookup ((allTaskParamDefinitions taskDefinition).foldl
          (valueStep taskArguments) []) p.name = some v := by
        rw [hvals, hlook, hres]
      refine ⟨v, ?_, Or.inl ⟨rfl, hcv⟩⟩
      rw [← hm, objLookup_writeEntries, resolvedValuesOf_eq,
        lookupLast_eq_objLookup _ _ hvnodup, hvlook]
    | none =>
      rw [hlook] at herr
      have hiopt : p.isOptional = true := by
        cases hio : p.isOptional
        · rw [show resolveArgument p none = .error (.missingTaskArgument p.name) by
            simp [resolveArgument, hio]] at herr
          exact Option.noConfusion herr
        · rfl
      obtain ⟨d, hd⟩ : ∃ d, p.defaultValue = some d := by
        rcases hdef with h | h
        · rw [hlook] at h; exact absurd h (by simp)
        · exact Option.isSome_iff_exists.mp h
      have hres : resolveArgument p none = .ok (some d) := by
        simp [resolveArgument, hiopt, hd]
      have hvlook : objLookup ((allTaskParamDefinitions taskDefinition).foldl
          (valueStep taskArguments) []) p.name = some d := by
        rw [hvals, hlook, hres]
      refine ⟨d, ?_, Or.inr ⟨rfl, hd⟩⟩
      rw [← hm, objLookup_writeEntries, resolvedValuesOf_eq,
        lookupLast_eq_objLookup _ _ hvnodup, hvlook]

/-- Fixture: an optional parameter with a declared default. -/
def optionalWithDefault : ParamDefinition :=
  { name := "net", defaultValue := some (.str "local"), type := none,
    isOptional := true, isVariadic := false }

/-- Fixture: a mandatory parameter that will be supplied. -/
def suppliedParam : ParamDefinition :=
  { name := "n", defaultValue := none, type := none,
    isOptional := false, isVariadic := false }

/-- Fixture: a task with one named parameter and one positional optional
parameter carrying a default. -/
def tdWithDefault : TaskDefinition Unit :=
  .base "sample" [suppliedParam] [optionalWithDefault] (fun _ _ => .ok ())

theorem resolveValidTaskArguments_binds_declared_params_witness :
    ∃ v, objLookup [("n", CVal.num 5), ("net", CVal.str "local")]
        optionalWithDefault.name = some v ∧
      ((objLookup [("n", CVal.num 5)] optionalWithDefault.name = some v
          ∧ checkTypeValidation optionalWithDefault v = .ok ())
        ∨ (objLookup [("n", CVal.num 5)] optionalWithDefault.name = none
          ∧ optionalWithDefault.defaultValue = some v)) :=
  resolveValidTaskArguments_binds_declared_params tdWithDefault
    [("n", CVal.num 5)] [("n", CVal.num 5), ("net", CVal.str "local")]
    (by decide) rfl optionalWithDefault
    (by simp [allTaskParamDefinitions, tdWithDefault, TaskDefinition.paramDefinitions,
      TaskDefinition.positionalParamDefinitions])
    (Or.inr rfl)

/-- Fixture: an optional parameter that declares no default. -/
def optionalNoDefault : ParamDefinition :=
  { name := "x", defaultValue := none, type := none,
    isOptional := true, isVariadic := false }

/-- Fixture: a task declaring only `optionalNoDefault`. -/
def tdNoDefault : TaskDefinition Unit :=
  .base "t" [optionalNoDefault] [] (fun _ _ => .ok ())

/-- C1, counterexample to the claim as stated: resolving `tdNoDefault` against
the empty raw arguments succeeds, yet the declared (optional, defaultless)
parameter `"x"` is *not* present as a key of the produced mapping — the code
only writes a key when the resolved value is defined
(`if (resolvedArgumentValue !== undefined)`). -/
theorem resolveValidTaskArguments_optional_without_default_omitted :
    ¬ (∀ (taskDefinition : TaskDefinition Unit) (taskArguments m : TaskArguments),
        resolveValidTaskArguments taskDefinition taskArguments = .ok m →
        ∀ p ∈ allTaskParamDefinitions taskDefinition,
          (objLookup m p.name).isSome = true) := by
  intro h
  have hmem : optionalNoDefault ∈ allTaskParamDefinitions tdNoDefault := by
    simp [allTaskParamDefinitions, tdNoDefault, TaskDefinition.paramDefinitions,
      TaskDefinition.positionalParamDefinitions]
  have := h tdNoDefault [] [] rfl optionalNoDefault hmem
  simp [objLookup] at this

/-- C3: For a task overridden twice, the action of the outermost override runs
first; its `runSuper`, invoked without explicit arguments, runs the middle
override's action on the same task-argument mapping, whose own `runSuper`,
again invoked without explicit arguments, runs the original action on the same
mapping — delegation is exactly reverse-registration order (LIFO).  An
explicit argument mapping passed to `runSuper` replaces the defaulted one, and
the original definition's `runSuper` only fails. -/
theorem runSuper_delegates_in_reverse_registration_order
    (n₀ n₁ n₂ : String)
    (pd₀ pd₁ pd₂ ppd₀ ppd₁ ppd₂ : List ParamDefinition)
    (a₀ a₁ a₂ : TaskArguments → RunSuperFunction ρ → Except TrestleError ρ)
    (taskArguments : TaskArguments) :
    ∃ rs₂ rs₁ rs₀ : RunSuperFunction ρ,
      runTaskDefinition
          (.overridden n₂ pd₂ ppd₂ a₂
            (.overridden n₁ pd₁ ppd₁ a₁ (.base n₀ pd₀ ppd₀ a₀)))
          taskArguments = a₂ taskArguments rs₂
        ∧ rs₂.isDefined = true
        ∧ rs₂.call none = a₁ taskArguments rs₁
        ∧ rs₁.isDefined = true
        ∧ rs₁.call none = a₀ taskArguments rs₀
        ∧ rs₀.isDefined = false
        ∧ (∀ explicitArgs, rs₂.call (some explicitArgs) =
            runTaskDefinition
              (.overridden n₁ pd₁ ppd₁ a₁ (.base n₀ pd₀ ppd₀ a₀)) explicitArgs)
        ∧ (∀ explicitArgs, rs₀.call explicitArgs =
            .error (.runSuperNotAvailable n₀)) := by
  refine ⟨⟨fun explicitArgs => runTaskDefinition
      (.overridden n₁ pd₁ ppd₁ a₁ (.base n₀ pd₀ ppd₀ a₀))
      (explicitArgs.getD taskArguments), true⟩,
    ⟨fun explicitArgs => runTaskDefinition (.base n₀ pd₀ ppd₀ a₀)
      (explicitArgs.getD taskArguments), true⟩,
    ⟨fun _ => .error (.runSuperNotAvailable n₀), false⟩,
    rfl, rfl, rfl, rfl, rfl, rfl, fun _ => rfl, fun _ => rfl⟩

/-- C8: the `runSuper` constructed for a base (non-overridden) task definition
unconditionally fails with `RUNSUPER_NOT_AVAILABLE` naming the task, and its
`isDefined` marker is `false` before (and independent of) any invocation; for
an overridden definition the marker is `true`. -/
theorem runSuper_markers (name : String) (pd ppd : List ParamDefinition)
    (act : TaskArguments → RunSuperFunction ρ → Except TrestleError ρ)
    (parent : TaskDefinition ρ) (taskArguments : TaskArguments) :
    (∃ rs : RunSuperFunction ρ,
        runTaskDefinition (.base name pd ppd act) taskArguments = act taskArguments rs
          ∧ rs.isDefined = false
          ∧ ∀ explicitArgs, rs.call explicitArgs = .error (.runSuperNotAvailable name))
      ∧ (∃ rs : RunSuperFunction ρ,
          runTaskDefinition (.overridden name pd ppd act parent) taskArguments
              = act taskArguments rs
            ∧ rs.isDefined = true) := by
  exact ⟨⟨⟨fun _ => .error (.runSuperNotAvailable name), false⟩, rfl, rfl, fun _ => rfl⟩,
    ⟨⟨fun explicitArgs => runTaskDefinition parent (explicitArgs.getD taskArguments), true⟩,
      rfl, rfl⟩⟩

/-- C2: around every task execution — whether the action succeeds or throws —
the `finally`-equivalent restore writes back, for exactly the key set that was
injected (the non-blacklisted enumerable entries), each global name's
pre-injection value, `undefined` (`none`) included for names that did not
previously exist, and `global.runSuper` is restored as well; names outside
that key set are exactly as the action left them.  Ambient pollution therefore
never outlives the execution window. -/
theorem runTaskDefinition_restores_ambient_globals {α : Type u} {β : Type v}
    (entries : List (String × α)) (blacklist : List String)
    (runSuperValue : α) (action : GlobalState α → β × GlobalState α)
    (g₀ : GlobalState α)
    (hnd : (injectedKeys entries blacklist).Nodup) :
    (∀ k, k ∈ injectedKeys entries blacklist →
        (runTaskDefinitionGlobals entries blacklist runSuperValue action g₀).2 k = g₀ k)
      ∧ (runTaskDefinitionGlobals entries blacklist runSuperValue action g₀).2 "runSuper"
          = g₀ "runSuper"
      ∧ (∀ k, k ∉ injectedKeys entries blacklist → k ≠ "runSuper" →
          (runTaskDefinitionGlobals entries blacklist runSuperValue action g₀).2 k =
            (action (injectToGlobal entries blacklist
              (gset g₀ "runSuper" (some runSuperValue))).1).2 k) := by
  have hfinal : (runTaskDefinitionGlobals entries blacklist runSuperValue action g₀).2 =
      gset (uninjectFromGlobal entries blacklist
          (injectToGlobal entries blacklist (gset g₀ "runSuper" (some runSuperValue))).2
          (action (injectToGlobal entries blacklist
            (gset g₀ "runSuper" (some runSuperValue))).1).2)
        "runSuper" (g₀ "runSuper") := rfl
  rw [hfinal]
  refine ⟨?_, ?_, ?_⟩
  · intro k hk
    by_cases hrs : k = "runSuper"
    · subst hrs; rw [gset_same]
    · rw [gset_other _ _ _ _ hrs, uninjectFromGlobal_lookup, if_pos hk]
      show (injectLoop blacklist entries
        (gset g₀ "runSuper" (some runSuperValue)) (fun _ => none)).2 k = g₀ k
      rw [injectLoop_prev_mem blacklist entries _ _ k hnd hk,
        gset_other _ _ _ _ hrs]
  · rw [gset_same]
  · intro k hk hrs
    rw [gset_other _ _ _ _ hrs, uninjectFromGlobal_lookup, if_neg hk]

theorem runTaskDefinition_restores_ambient_globals_witness :
    (runTaskDefinitionGlobals [("config", (1 : Nat)), ("tasks", 2)]
        ["injectToGlobal", "_runTaskDefinition"] 7
        (fun g => (true, gset g "config" (some 99)))
        (fun _ => none)).2 "config" = none :=
  (runTaskDefinition_restores_ambient_globals
      [("config", (1 : Nat)), ("tasks", 2)] ["injectToGlobal", "_runTaskDefinition"] 7
      (fun g => (true, gset g "config" (some 99))) (fun _ => none)
      (by decide)).1 "config" (by decide)

/-! Helper lemmas for the path and merge claims. -/

theorem lookupLast_map {β : Type u} {γ : Type v} (g : β → γ) (l : List (String × β))
    (k : String) :
    lookupLast (l.map (fun kv => (kv.1, g kv.2))) k = (lookupLast l k).map g := by
  induction l with
  | nil => rfl
  | cons hd tl ih =>
    obtain ⟨a, b⟩ := hd
    simp only [List.map_cons, lookupLast, ih]
    cases lookupLast tl k with
    | some v => rfl
    | none => by_cases hak : a = k <;> simp [hak]

theorem fromEntries_map_lookup {β : Type u} {γ : Type v} (g : β → γ)
    (l : List (String × β)) (k : String) (hnd : (l.map Prod.fst).Nodup) :
    objLookup (fromEntries (l.map (fun kv => (kv.1, g kv.2)))) k =
      (objLookup l k).map g := by
  unfold fromEntries
  rw [objLookup_writeEntries, lookupLast_map, lookupLast_eq_objLookup l k hnd]
  cases objLookup l k <;> rfl

theorem deepmergeVal_arr (t : CVal) (xs : List CVal) :
    deepmergeVal t (.arr xs) = .arr xs := by
  cases t <;> rfl

/-- Specification-side path resolution: "if a path is absolute it is used as
is; if relative, it resolves relative to the given base". -/
def resolvesFromSpec (base p : String) : String :=
  if posixIsAbsolute p then p else posixJoin base p

/-- Specification-side `root`: the user's declared root if absolute, else the
config file's directory joined with the declared root, defaulting to the
config directory (join with the empty string) when no root is declared. -/
def specRoot (userConfigPath : String) (userPaths : UserPaths) : String :=
  match objLookup userPaths "root" with
  | some v => resolvesFromSpec (posixDirname userConfigPath) v
  | none => posixJoin (posixDirname userConfigPath) ""

/-- C4: `resolveProjectPaths` fixes `configFile` to the input config-file
path; sets `root` per `specRoot`; resolves `sources`/`cache`/`artifacts`/
`tests` (defaults `"contracts"`/`"cache"`/`"artifacts"`/`"test"`) relative to
`root` when relative and as-is when absolute; and resolves every other
user-declared named path the same way relative to `root`. -/
theorem resolveProjectPaths_spec (userConfigPath : String) (userPaths : UserPaths)
    (hnd : (userPaths.map Prod.fst).Nodup) :
    objLookup (resolveProjectPaths userConfigPath userPaths) "configFile"
        = some userConfigPath
      ∧ objLookup (resolveProjectPaths userConfigPath userPaths) "root"
        = some (specRoot userConfigPath userPaths)
      ∧ objLookup (resolveProjectPaths userConfigPath userPaths) "sources"
        = some (resolvesFromSpec (specRoot userConfigPath userPaths)
            ((objLookup userPaths "sources").getD "contracts"))
      ∧ objLookup (resolveProjectPaths userConfigPath userPaths) "cache"
        = some (resolvesFromSpec (specRoot userConfigPath userPaths)
            ((objLookup userPaths "cache").getD "cache"))
      ∧ objLookup (resolveProjectPaths userConfigPath userPaths) "artifacts"
        = some (resolvesFromSpec (specRoot userConfigPath userPaths)
            ((objLookup userPaths "artifacts").getD "artifacts"))
      ∧ objLookup (resolveProjectPaths userConfigPath userPaths) "tests"
        = some (resolvesFromSpec (specRoot userConfigPath userPaths)
            ((objLookup userPaths "tests").getD "test"))
      ∧ ∀ k, k ∉ (["root", "configFile", "sources", "cache", "artifacts",
            "tests"] : List String) →
          objLookup (resolveProjectPaths userConfigPath userPaths) k
            = (objLookup userPaths k).map
                (resolvesFromSpec (specRoot userConfigPath userPaths)) := by
  have hroot : resolvePathFrom (posixDirname userConfigPath) ""
      (objLookup userPaths "root") = specRoot userConfigPath userPaths := by
    unfold specRoot resolvesFromSpec resolvePathFrom
    cases objLookup userPaths "root" <;> rfl
  have hr : resolveProjectPaths userConfigPath userPaths =
      objSet (objSet (objSet (objSet (objSet (objSet
        (fromEntries (userPaths.map (fun kv =>
          (kv.1, resolvePathFrom (specRoot userConfigPath userPaths) kv.2 none))))
        "root" (specRoot userConfigPath userPaths))
        "configFile" userConfigPath)
        "sources" (resolvePathFrom (specRoot userConfigPath userPaths) "contracts"
          (objLookup userPaths "sources")))
        "cache" (resolvePathFrom (specRoot userConfigPath userPaths) "cache"
          (objLookup userPaths "cache")))
        "artifacts" (resolvePathFrom (specRoot userConfigPath userPaths) "artifacts"
          (objLookup userPaths "artifacts")))
        "tests" (resolvePathFrom (specRoot userConfigPath userPaths) "test"
          (objLookup userPaths "tests")) := by
    simp only [resolveProjectPaths]
    rw [hroot]
  refine ⟨?_, ?_, ?_, ?_, ?_, ?_, ?_⟩
  · rw [hr, objLookup_objSet, if_neg (by decide), objLookup_objSet, if_neg (by decide),
      objLookup_objSet, if_neg (by decide), objLookup_objSet, if_neg (by decide),
      objLookup_objSet, if_pos rfl]
  · rw [hr, objLookup_objSet, if_neg (by decide), objLookup_objSet, if_neg (by decide),
      objLookup_objSet, if_neg (by decide), objLookup_objSet, if_neg (by decide),
      objLookup_objSet, if_neg (by decide), objLookup_objSet, if_pos rfl]
  · rw [hr, objLookup_objSet, if_neg (by decide), objLookup_objSet, if_neg (by decide),
      objLookup_objSet, if_neg (by decide), objLookup_objSet, if_pos rfl]
    rfl
  · rw [hr, objLookup_objSet, if_neg (by decide), objLookup_objSet, if_neg (by decide),
      objLookup_objSet, if_pos rfl]
    rfl
  · rw [hr, objLookup_objSet, if_neg (by decide), objLookup_objSet, if_pos rfl]
    rfl
  · rw [hr, objLookup_objSet, if_pos rfl]
    rfl
  · intro k hk
    simp only [List.mem_cons, List.not_mem_nil, or_false, not_or] at hk
    obtain ⟨h1, h2, h3, h4, h5, h6⟩ := hk
    rw [hr, objLookup_objSet, if_neg h6, objLookup_objSet, if_neg h5,
      objLookup_objSet, if_neg h4, objLookup_objSet, if_neg h3,
      objLookup_objSet, if_neg h2, objLookup_objSet, if_neg h1]
    exact fromEntries_map_lookup
      (resolvesFromSpec (specRoot userConfigPath userPaths)) userPaths k hnd

theorem resolveProjectPaths_spec_witness :
    objLookup (resolveProjectPaths "/proj/cfg.js" [("root", "sub")]) "sources"
      = some "/proj/sub/contracts" := by
  rw [(resolveProjectPaths_spec "/proj/cfg.js" [("root", "sub")] (by decide)).2.2.1]
  rfl

/-- C5: the configured deep merge merges object fields recursively, the user
value wins on conflicting non-mergeable (scalar) values, an array-valued field
in the user configuration entirely replaces the default's value, fields absent
from the user configuration keep the default's value, and on the spec's
example `{a: 1, list: [1, 2]}` merged with `{list: [3]}` yields
`{a: 1, list: [3]}`. -/
theorem mergeUserAndDefaultConfigs_policy (defaultConfig userConfig : Config)
    (hnu : (userConfig.map Prod.fst).Nodup) :
    (∀ k v, objLookup userConfig k = some v → v.isMergeable = false →
        objLookup (mergeUserAndDefaultConfigs defaultConfig userConfig) k = some v)
      ∧ (∀ k xs, objLookup userConfig k = some (.arr xs) →
          objLookup (mergeUserAndDefaultConfigs defaultConfig userConfig) k
            = some (.arr xs))
      ∧ (∀ k, objLookup userConfig k = none →
          objLookup (mergeUserAndDefaultConfigs defaultConfig userConfig) k
            = objLookup defaultConfig k)
      ∧ (∀ k tv sv, objLookup defaultConfig k = some tv →
          objLookup userConfig k = some sv → sv.isMergeable = true →
          objLookup (mergeUserAndDefaultConfigs defaultConfig userConfig) k
            = some (deepmergeVal tv sv))
      ∧ mergeUserAndDefaultConfigs
          [("a", CVal.num 1), ("list", CVal.arr [CVal.num 1, CVal.num 2])]
          [("list", CVal.arr [CVal.num 3])]
          = [("a", CVal.num 1), ("list", CVal.arr [CVal.num 3])] := by
  have hm : ∀ k, objLookup (mergeUserAndDefaultConfigs defaultConfig userConfig) k =
      match objLookup userConfig k with
      | none => objLookup defaultConfig k
      | some sv => some (mergedField (.obj defaultConfig) k sv) := by
    intro k
    rw [mergeUserAndDefaultConfigs_eq]
    exact mergeSourceFields_lookup (.obj defaultConfig) defaultConfig userConfig k hnu
  refine ⟨?_, ?_, ?_, ?_, rfl⟩
  · intro k v hv hnmerge
    rw [hm k, hv]
    unfold mergedField
    simp only [CVal.objFields]
    cases objLookup defaultConfig k with
    | none => rfl
    | some tv => rw [hnmerge]
  · intro k xs hv
    rw [hm k, hv]
    unfold mergedField
    simp only [CVal.objFields]
    cases objLookup defaultConfig k with
    | none => rfl
    | some tv =>
      simp only [deepmergeVal_arr]
      rfl
  · intro k hnone
    rw [hm k, hnone]
  · intro k tv sv htv hsv hmerge
    rw [hm k, hsv]
    unfold mergedField
    simp only [CVal.objFields]
    rw [htv, hmerge]

theorem mergeUserAndDefaultConfigs_policy_witness :
    mergeUserAndDefaultConfigs
        [("a", CVal.num 1), ("list", CVal.arr [CVal.num 1, CVal.num 2])]
        [("list", CVal.arr [CVal.num 3])]
      = [("a", CVal.num 1), ("list", CVal.arr [CVal.num 3])] :=
  (mergeUserAndDefaultConfigs_policy
      [("a", CVal.num 1), ("list", CVal.arr [CVal.num 1, CVal.num 2])]
      [("list", CVal.arr [CVal.num 3])] (by decide)).2.2.2.2

/-- C9: the resolved configuration always carries a `networks` member (the
`ResolvedConfig` shape makes it non-optional, and `resolveConfig` writes
`config.networks ?? {}` into it); when neither the default nor the user
configuration declares `networks`, the member is exactly the empty mapping —
stated for every extender list whose members leave `networks` alone (a config
extender receives the resolved object mutably and per §4.3 may adjust it). -/
theorem resolveConfig_networks_present_default_empty (userConfigPath : Option String)
    (defaultConfig userConfig : Config) (configExtenders : List ConfigExtender)
    (hdc : objLookup defaultConfig "networks" = none)
    (huc : objLookup userConfig "networks" = none)
    (hexts : ∀ e ∈ configExtenders, ∀ rc u, (e rc u).networks = rc.networks) :
    (resolveConfig userConfigPath defaultConfig userConfig configExtenders).networks
      = .obj [] := by
  have hmerged : objLookup (mergeUserAndDefaultConfigs defaultConfig userConfig)
      "networks" = none := by
    rw [mergeUserAndDefaultConfigs_eq,
      mergeSourceFields_lookup_not_mem _ _ _ _
        (not_mem_of_objLookup_eq_none userConfig "networks" huc)]
    exact hdc
  have hpres : ∀ (l : List ConfigExtender) (rc : ResolvedConfig),
      (∀ e ∈ l, ∀ r u, (e r u).networks = r.networks) →
      (l.foldl (fun acc e => e acc userConfig) rc).networks = rc.networks := by
    intro l
    induction l with
    | nil => intro rc _; rfl
    | cons e rest ih =>
      intro rc hl
      rw [List.foldl_cons, ih _ (fun e' he' => hl e' (List.mem_cons_of_mem _ he'))]
      exact hl e (List.mem_cons_self _ _) rc userConfig
  have hrc : resolveConfig userConfigPath defaultConfig userConfig configExtenders =
      configExtenders.foldl (fun acc e => e acc userConfig)
        { fields := mergeUserAndDefaultConfigs defaultConfig userConfig
          paths := userConfigPath.map
            (fun p => resolveProjectPaths p (userPathsOf userConfig))
          networks := (objLookup (mergeUserAndDefaultConfigs defaultConfig userConfig)
            "networks").getD (.obj []) } := rfl
  rw [hrc, hpres configExtenders _ hexts]
  show (objLookup (mergeUserAndDefaultConfigs defaultConfig userConfig)
    "networks").getD (.obj []) = .obj []
  rw [hmerged]
  rfl

theorem resolveConfig_networks_present_default_empty_witness :
    (resolveConfig none [("a", CVal.num 1)] [] []).networks = .obj [] :=
  resolveConfig_networks_present_default_empty none [("a", CVal.num 1)] [] []
    rfl rfl (by simp)

/-- C10: with `networkRequired = false` the `Environment` constructor never
fails with `CONFIG_NOT_FOUND`: even when the selected network name has no
entry in `config.networks`, construction completes with
`network = { name := runtimeArgs.network, config := undefined }` and every
extender is still invoked, in list order, on the constructed environment;
with `networkRequired = true` and the entry missing, the constructor throws —
independently of the extender list, i.e. before any extender is invoked. -/
theorem createEnvironment_network_optional (config : ResolvedConfig)
    (runtimeArgs : RuntimeArgs) (tasks : TasksMap ρ)
    (extenders : List (EnvState ρ → EnvState ρ))
    (h : objLookup config.networks.objFields runtimeArgs.network = none) :
    createEnvironment config runtimeArgs tasks extenders false =
        .ok (extenders.foldl (fun e extender => extender e)
          { config := config, runtimeArgs := runtimeArgs, tasks := tasks,
            network := { name := runtimeArgs.network, config := none } })
      ∧ (∀ extenders' : List (EnvState ρ → EnvState ρ),
          createEnvironment config runtimeArgs tasks extenders' true =
            .error (.networkConfigNotFound runtimeArgs.network)) := by
  constructor
  · simp [createEnvironment, h]
  · intro extenders'
    simp [createEnvironment, h]

/-- A concrete empty resolved configuration for the constructor witness. -/
def emptyResolvedConfig : ResolvedConfig :=
  { fields := [], paths := none, networks := .obj [] }

theorem createEnvironment_network_optional_witness :
    createEnvironment emptyResolvedConfig { network := "testnet" }
          ([] : TasksMap Unit) [] false =
        .ok (([] : List (EnvState Unit → EnvState Unit)).foldl
          (fun e extender => extender e)
          { config := emptyResolvedConfig, runtimeArgs := { network := "testnet" },
            tasks := [], network := { name := "testnet", config := none } })
      ∧ (∀ extenders' : List (EnvState Unit → EnvState Unit),
          createEnvironment emptyResolvedConfig { network := "testnet" }
              ([] : TasksMap Unit) extenders' true =
            .error (.networkConfigNotFound "testnet")) :=
  createEnvironment_network_optional emptyResolvedConfig { network := "testnet" }
    [] [] rfl

end Claims

end Trestle
